import Mathlib

/-!
Verification of the playlist-export pipeline in `export_spotify_playlist.py`.

The Python source is shallowly embedded: Python dicts that hold rows are
modelled as ordered association lists (`Row`), Python `None`/missing keys on
the raw API payloads as `Option` fields, the cursor-paginated remote source as
the list of pages it would return, and Python machine integers as `Int` with
Python floor division (`Int.fdiv`) and floor modulus (`Int.fmod`).
-/

/-- Values stored in a Python dict row: strings or integers. -/
inductive Val where
  | str : String → Val
  | int : Int → Val
deriving DecidableEq

/-- Decimal digit character, as produced by Python string formatting. -/
def digitChar : Nat → Char
  | 0 => '0'
  | 1 => '1'
  | 2 => '2'
  | 3 => '3'
  | 4 => '4'
  | 5 => '5'
  | 6 => '6'
  | 7 => '7'
  | 8 => '8'
  | 9 => '9'
  | _ => '*'

/-- Fuel-indexed decimal digit list of a natural number (most significant
first), mirroring Python `str()` / f-string formatting of a non-negative
integer.  Fuel `n + 1` is always sufficient. -/
def natDigitsAux : Nat → Nat → List Char
  | 0, _ => []
  | fuel + 1, n =>
    if n < 10 then [digitChar n]
    else natDigitsAux fuel (n / 10) ++ [digitChar (n % 10)]

/-- Decimal digits of `n`, most significant first. -/
def natDigits (n : Nat) : List Char := natDigitsAux (n + 1) n

/-- Decimal representation of a natural number (no leading zero, no sign). -/
def natRepr (n : Nat) : String := (natDigits n).asString

/-- Decimal representation of an integer, as Python `str()` renders an `int`. -/
def intRepr (i : Int) : String :=
  if i < 0 then "-" ++ natRepr (-i).toNat else natRepr i.toNat

/-- Python `f"{s:02d}"`: pad a decimal integer with a leading zero to width 2. -/
def pad2 (s : Int) : String :=
  if 0 ≤ s ∧ s < 10 then "0" ++ intRepr s else intRepr s

/-- Embedding of `mmss` (source lines 51-54): `total_seconds = ms // 1000`,
`m, s = divmod(total_seconds, 60)`, rendered as `f"{m}:{s:02d}"`.  Python `//`
and `divmod` are floor division and floor modulus, i.e. `Int.fdiv`/`Int.fmod`. -/
def mmss (ms : Int) : String :=
  let total_seconds := ms.fdiv 1000
  let m := total_seconds.fdiv 60
  let s := total_seconds.fmod 60
  intRepr m ++ ":" ++ pad2 s

example : mmss 65000 = "1:05" := by decide
example : mmss 0 = "0:00" := by decide
example : mmss 3599000 = "59:59" := by decide
example : mmss (-1) = "-1:59" := by decide

/-! ## Python dict rows -/

/-- A Python dict with string keys, modelled as an ordered association list:
Python dicts preserve insertion order, and the pipeline only ever builds rows
whose keys are distinct. -/
abbrev Row := List (String × Val)

/-- Keys of a dict, in insertion order (`list(d.keys())`). -/
def rowKeys (r : Row) : List String := r.map Prod.fst

/-- Python `d.get(k, default)`. -/
def rowGet (r : Row) (k : String) (d : Val) : Val :=
  match r with
  | [] => d
  | (k₀, v₀) :: rest => if k₀ = k then v₀ else rowGet rest k d

/-- Python `d.get(k)` returning `None` when the key is absent. -/
def rowFind (r : Row) (k : String) : Option Val :=
  match r with
  | [] => none
  | (k₀, v₀) :: rest => if k₀ = k then some v₀ else rowFind rest k

/-- Python `d[k] = v`: replace the value in place when the key exists,
append the pair at the end otherwise. -/
def setKey (r : Row) (k : String) (v : Val) : Row :=
  match r with
  | [] => [(k, v)]
  | (k₀, v₀) :: rest => if k₀ = k then (k₀, v) :: rest else (k₀, v₀) :: setKey rest k v

/-- Python `d.update(u)`: apply each key/value pair of `u` in order. -/
def dictUpdate (r : Row) (u : List (String × Val)) : Row :=
  u.foldl (fun acc kv => setKey acc kv.1 kv.2) r

/-- Python `str()` of a dict value, as interpolated into f-strings and CSV. -/
def valStr : Val → String
  | Val.str s => s
  | Val.int i => intRepr i

/-! ## Python string comparison

Python compares strings lexicographically on code points.  The comparison is
embedded as an executable Boolean function; `pyStrLt_iff`/`pyStrLe_iff` link
it to the string order used by the order-theoretic lemmas. -/

/-- Code-point comparison of two characters. -/
def charLtB (a b : Char) : Bool := decide (a.toNat < b.toNat)

/-- Lexicographic code-point comparison of two character lists. -/
def strLtB : List Char → List Char → Bool
  | [], [] => false
  | [], _ :: _ => true
  | _ :: _, [] => false
  | a :: as, b :: bs =>
    if charLtB a b then true
    else if charLtB b a then false
    else strLtB as bs

/-- Python `s < t` on strings. -/
def pyStrLt (s t : String) : Bool := strLtB s.toList t.toList

/-- Python `s <= t` on strings. -/
def pyStrLe (s t : String) : Bool := !pyStrLt t s

/-! ## Raw Spotify API payloads

Every optional or nullable field of the JSON payload is an `Option`; `none`
covers both a missing key and an explicit `null` (Python `dict.get` returns
`None` in both cases at every access site modelled here). -/

structure RawArtist where
  name : Option String
deriving DecidableEq

structure RawAlbum where
  name : Option String
deriving DecidableEq

structure RawExtUrls where
  spotify : Option String
deriving DecidableEq

structure RawTrack where
  name : Option String
  artists : Option (List RawArtist)
  album : Option RawAlbum
  duration_ms : Option Int
  external_urls : Option RawExtUrls
  uri : Option String
  id : Option String
deriving DecidableEq

/-- One playlist-track membership record, with its nested (nullable) track. -/
structure RawMembership where
  added_at : Option String
  track : Option RawTrack
deriving DecidableEq

/-! ## Row Normalizer (`to_rows`, source lines 67-92) -/

/-- Embedding of the loop body of `to_rows`: each membership with a truthy
`track` contributes one dict built in the source's key order; a membership
whose `track` is null or missing is skipped (`continue`). -/
def to_rows : List RawMembership → List Row
  | [] => []
  | item :: rest =>
    match item.track with
    | none => to_rows rest
    | some track =>
      [("title", Val.str (track.name.getD "")),
       ("artists", Val.str (String.intercalate ", "
          ((track.artists.getD []).map (fun a => a.name.getD "")))),
       ("album", Val.str (match track.album with
          | some al => al.name.getD ""
          | none => "")),
       ("duration_ms", Val.int (track.duration_ms.getD 0)),
       ("duration_mm_ss", Val.str (mmss (track.duration_ms.getD 0))),
       ("added_at", Val.str (item.added_at.getD "")),
       ("spotify_url", Val.str (match track.external_urls with
          | some e => e.spotify.getD ""
          | none => "")),
       ("spotify_uri", Val.str (track.uri.getD ""))] :: to_rows rest

/-- The Row Normalizer as the specification states it: zero rows for a
null/missing track, otherwise one row whose fields carry the documented
defaults, with `duration_mm_ss` tied to the Duration Formatter. -/
def specRow (item : RawMembership) : Option Row :=
  match item.track with
  | none => none
  | some track =>
    some
      [("title", Val.str (track.name.getD "")),
       ("artists", Val.str (String.intercalate ", "
          ((track.artists.getD []).map (fun a => a.name.getD "")))),
       ("album", Val.str (match track.album with
          | some al => al.name.getD ""
          | none => "")),
       ("duration_ms", Val.int (track.duration_ms.getD 0)),
       ("duration_mm_ss", Val.str (mmss (track.duration_ms.getD 0))),
       ("added_at", Val.str (item.added_at.getD "")),
       ("spotify_url", Val.str (match track.external_urls with
          | some e => e.spotify.getD ""
          | none => "")),
       ("spotify_uri", Val.str (track.uri.getD ""))]

/-! ## Paginator (`fetch_tracks`, source lines 57-64)

The cursor-paginated remote source is modelled by the finite chain of pages it
returns: each fetch yields one page's items together with the cursor to the
next page, and the terminating fetch carries a null cursor, so a run of the
while loop consumes exactly the list of pages.  The instrumented variant also
counts the fetches performed. -/

def fetch_tracks_instr {α : Type} : List (List α) → List α × Nat
  | [] => ([], 0)
  | batch :: rest =>
    let r := fetch_tracks_instr rest
    (batch ++ r.1, r.2 + 1)

/-- Embedding of `fetch_tracks`: concatenate the pages in API-return order. -/
def fetch_tracks {α : Type} (pages : List (List α)) : List α :=
  (fetch_tracks_instr pages).1

/-! ## Playlist created date (`get_playlist_created_date`, lines 95-104) -/

/-- Python `min` over a non-empty list of strings (lexicographic order on
code points), folded exactly as `min` iterates. -/
def pyMinFold (x : String) (xs : List String) : String :=
  xs.foldl (fun acc s => if pyStrLt s acc then s else acc) x

/-- The list comprehension at lines 99-100: the `added_at` values that are
truthy, i.e. present and non-empty. -/
def truthyAddedAts (items : List RawMembership) : List String :=
  items.filterMap (fun item =>
    match item.added_at with
    | none => none
    | some s => if s = "" then none else some s)

/-- Embedding of `get_playlist_created_date`, applied to the page chain of the
playlist's membership listing. -/
def get_playlist_created_date (pages : List (List RawMembership)) : String :=
  let items := fetch_tracks pages
  if items = [] then "Unknown"
  else
    match truthyAddedAts items with
    | [] => "Unknown"
    | x :: xs => pyMinFold x xs

/-- The `added_at` values present on a list of memberships, as the claim reads
them (no truthiness filtering). -/
def presentAddedAts (items : List RawMembership) : List String :=
  items.filterMap (fun item => item.added_at)

/-! ## Landing page rankings (`main`, lines 364-388) -/

/-- A user playlist, after `main` stores `created_date` on it. -/
structure Playlist where
  id : String
  name : String
  tracks_total : Nat
  created_date : Option String
deriving DecidableEq

/-- The sort key used at source lines 376-377:
`x.get('created_date') or '9999-99-99T99:99:99Z'`.  The fallback replaces a
missing or empty (falsy) value only; the literal string `"Unknown"` is truthy
and is used as-is. -/
def createdSortKey (p : Playlist) : String :=
  match p.created_date with
  | none => "9999-99-99T99:99:99Z"
  | some s => if s = "" then "9999-99-99T99:99:99Z" else s

/-- Stable insertion into a key-sorted list: the new element goes before the
first element with a key not smaller than its own. -/
def keyInsert {α : Type} (key : α → String) (a : α) : List α → List α
  | [] => [a]
  | b :: l => if pyStrLe (key a) (key b) then a :: b :: l else b :: keyInsert key a l

/-- Embedding of Python `sorted(xs, key=key)`: a stable sort by the string
key (CPython's sort is stable; stable insertion sort realizes its contract). -/
def pySorted {α : Type} (key : α → String) : List α → List α
  | [] => []
  | b :: l => keyInsert key b (pySorted key l)

/-- `created_date_playlists` of source lines 376-377: stable-sort the
playlists by `createdSortKey`, then truncate to the first 10. -/
def created_date_playlists (playlists : List Playlist) : List Playlist :=
  (pySorted createdSortKey playlists).take 10

/-! ## Audio-feature enrichment (`main`, lines 405-412) -/

/-- One audio-feature record, as the dict the Spotify client returns. -/
abbrev Feat := List (String × Val)

/-- The track ids requested for `sp.audio_features`: one per membership whose
`track` and `track['id']` are both truthy (lines 406-407). -/
def extractTrackIds (items : List RawMembership) : List String :=
  items.filterMap (fun item =>
    match item.track with
    | none => none
    | some t =>
      match t.id with
      | none => none
      | some i => if i = "" then none else some i)

/-- Body of the `zip(rows, features_list)` loop: a falsy feature entry
(`None` or an empty dict) leaves the row unmodified, otherwise the row is
updated with the feature record. -/
def applyFeat (r : Row) (f : Option Feat) : Row :=
  match f with
  | none => r
  | some fs => if fs = [] then r else dictUpdate r fs

/-- Python `zip` pairing of rows with feature entries: pairs up to the
shorter list; rows without a partner are left unmodified. -/
def enrichZip : List Row → List (Option Feat) → List Row
  | [], _ => []
  | rs, [] => rs
  | r :: rs, f :: fs => applyFeat r f :: enrichZip rs fs

/-- Embedding of the enrichment block: extract the truthy track ids, fetch
their features (`lookup` stands for the per-id result of
`sp.audio_features`), and merge them into the rows by position. -/
def enrichRows (items : List RawMembership) (rows : List Row)
    (lookup : String → Option Feat) : List Row :=
  let ids := extractTrackIds items
  if ids = [] then rows else enrichZip rows (ids.map lookup)

/-! ## CSV export (`main`, lines 414-422) -/

/-- The fallback header used when no rows exist (lines 414-415). -/
def fallback_fieldnames : List String :=
  ["title", "artists", "album", "duration_ms", "duration_mm_ss",
   "added_at", "spotify_url", "spotify_uri"]

/-- `fieldnames = list(rows[0].keys()) if rows else [...]`. -/
def csvFieldnames (rows : List Row) : List String :=
  match rows with
  | [] => fallback_fieldnames
  | r :: _ => rowKeys r

/-- One cell as `csv.DictWriter` renders it: the stringified stored value, or
the empty string for a field the row lacks (`restval=None` is written as an
empty cell). -/
def csvCell (r : Row) (f : String) : String :=
  match rowFind r f with
  | none => ""
  | some v => valStr v

/-- `DictWriter.writerow` on one dict: raises `ValueError` when the dict has
a key outside `fieldnames` (the default `extrasaction='raise'`), otherwise
emits the cells in field order. -/
def writeRowD (fieldnames : List String) (r : Row) : Except String (List String) :=
  if (rowKeys r).all (fun k => fieldnames.contains k) then
    Except.ok (fieldnames.map (csvCell r))
  else
    Except.error "ValueError"

/-- `writer.writerows(rows)` after `writer.writeheader()`: records written so
far, and whether a `ValueError` aborted the write. -/
def writeRowsPartial (fieldnames : List String) : List Row → List (List String) × Bool
  | [] => ([], false)
  | r :: rs =>
    match writeRowD fieldnames r with
    | Except.error _ => ([], true)
    | Except.ok line =>
      let rest := writeRowsPartial fieldnames rs
      (line :: rest.1, rest.2)

/-- The CSV document as written: header record first (always), then the data
records, with the flag recording whether `writerows` raised. -/
def csvWriteFile (fieldnames : List String) (rows : List Row) :
    List (List String) × Bool :=
  let body := writeRowsPartial fieldnames rows
  (fieldnames :: body.1, body.2)

/-- The whole tabular branch of `main`: derive the header from the rows and
write the document. -/
def csvExportFile (rows : List Row) : List (List String) × Bool :=
  csvWriteFile (csvFieldnames rows) rows

/-! ## Companion numbered text file (`generate_html`, lines 190-198) -/

/-- `pat.isPrefixOf s` fails at every position `i < k` of `s`. -/
def noEarlyMatch (pat s : List Char) (k : Nat) : Bool :=
  (List.range k).all (fun i => ! pat.isPrefixOf (s.drop i))

/-- Fuel-indexed embedding of Python `str.replace`: replace every
non-overlapping occurrence of `pat`, scanning left to right.  Fuel equal to
the length of the scanned list is always sufficient for a non-empty pattern. -/
def replaceAllAux (pat rep : List Char) : Nat → List Char → List Char
  | 0, s => s
  | _ + 1, [] => []
  | fuel + 1, c :: rest =>
    if pat.isPrefixOf (c :: rest) then
      rep ++ replaceAllAux pat rep fuel ((c :: rest).drop pat.length)
    else
      c :: replaceAllAux pat rep fuel rest

/-- Python `s.replace(pat, rep)` for a non-empty pattern. -/
def pyReplace (s pat rep : String) : String :=
  (replaceAllAux pat.toList rep.toList s.toList.length s.toList).asString

/-- The companion file name: `output.replace('.html', '.txt')` (line 192). -/
def txtOutputName (output : String) : String :=
  pyReplace output ".html" ".txt"

/-- The numbered lines written by the loop at lines 195-198, starting the
counter at `i`. -/
def txtLines (i : Nat) : List Row → List String
  | [] => []
  | row :: rest =>
    (natRepr i ++ ". " ++ valStr (rowGet row "title" (Val.str "")) ++ " - "
      ++ valStr (rowGet row "artists" (Val.str "")) ++ "\n") :: txtLines (i + 1) rest

/-- The full content of the companion text file: the playlist name, a blank
line, then the numbered lines (lines 193-198). -/
def txtContent (playlist_name : String) (rows : List Row) : String :=
  playlist_name ++ "\n\n" ++ String.join (txtLines 1 rows)

example : txtOutputName "abc.html" = "abc.txt" := by decide
example : txtOutputName "a.html.html" = "a.txt.txt" := by decide

/-! ## Specification-side helper predicates -/

/-- `c` is one of the characters 0-5. -/
def isDigit05 (c : Char) : Bool := decide ('0' ≤ c) && decide (c ≤ '5')

/-- The two characters after the colon of `M:SS`: exactly `[0-5][0-9]`. -/
def checkSS : List Char → Bool
  | [a, b] => isDigit05 a && b.isDigit
  | _ => false

/-- Matcher for the tail of `^[0-9]+:[0-5][0-9]$` after its first character:
zero or more digits, then a colon followed by exactly `[0-5][0-9]`. -/
def mmssRest : List Char → Bool
  | [] => false
  | c :: rest => if c = ':' then checkSS rest else c.isDigit && mmssRest rest

/-- The string matches the regular expression `^[0-9]+:[0-5][0-9]$`. -/
def matchesMMSS (s : String) : Bool :=
  match s.toList with
  | [] => false
  | c :: rest => c.isDigit && mmssRest rest

/-- Numeric value of a decimal digit character. -/
def digitVal (c : Char) : Nat := c.toNat - 48

/-- The number denoted by a list of decimal digit characters. -/
def decodeDigits (l : List Char) : Nat :=
  l.foldl (fun a c => a * 10 + digitVal c) 0

/-- The string looks like a date: non-empty and starting with a digit (every
ISO-8601 timestamp does). -/
def dateLike (s : String) : Bool :=
  match s.toList with
  | [] => false
  | c :: _ => c.isDigit

/-- Every playlist's sort key is the literal `"Unknown"` or date-like. -/
def datesWellFormed (ps : List Playlist) : Bool :=
  ps.all (fun p => createdSortKey p == "Unknown" || dateLike (createdSortKey p))

/-- Every raw duration that is present is non-negative. -/
def durationsNonneg (items : List RawMembership) : Bool :=
  items.all (fun item =>
    match item.track with
    | none => true
    | some t =>
      match t.duration_ms with
      | none => true
      | some d => decide (0 ≤ d))

/-- The seconds part of the claimed `M:SS` rendering: the two-digit decimal
representation of a number below 60. -/
def specSS (s : Nat) : String :=
  if s < 10 then "0" ++ natRepr s else natRepr s

/-! ## Concrete fixtures -/

/-- Two memberships whose first track has no id and whose second has id
`"b"`: the audio-feature request list then contains only `"b"`. -/
def misalignItems : List RawMembership :=
  [⟨none, some ⟨some "A", none, none, some 1000, none, some "spotify:track:a", none⟩⟩,
   ⟨none, some ⟨some "B", none, none, some 2000, none, some "spotify:track:b", some "b"⟩⟩]

/-- Two memberships with track ids `"a"` and `"b"`. -/
def alignedItems : List RawMembership :=
  [⟨none, some ⟨some "A", none, none, some 1000, none, some "spotify:track:a", some "a"⟩⟩,
   ⟨none, some ⟨some "B", none, none, some 2000, none, some "spotify:track:b", some "b"⟩⟩]

/-- A feature source that has a record only for track id `"b"`. -/
def featLookup : String → Option Feat :=
  fun i => if i = "b" then some [("tempo", Val.int 120)] else none

/-! # Supporting lemmas -/

theorem natDigitsAux_fuel (f₁ : Nat) : ∀ (f₂ n : Nat), n < f₁ → n < f₂ →
    natDigitsAux f₁ n = natDigitsAux f₂ n := by
  induction f₁ with
  | zero => intro f₂ n h₁ _; omega
  | succ f ih =>
    intro f₂ n h₁ h₂
    cases f₂ with
    | zero => omega
    | succ g =>
      by_cases h : n < 10
      · simp [natDigitsAux, h]
      · simp only [natDigitsAux, if_neg h]
        rw [ih g (n / 10) (by omega) (by omega)]

theorem digitChar_isDigit {d : Nat} (h : d < 10) : (digitChar d).isDigit = true := by
  interval_cases d <;> decide

theorem digitChar_isDigit05 {d : Nat} (h : d ≤ 5) : isDigit05 (digitChar d) = true := by
  interval_cases d <;> decide

theorem digitVal_digitChar {d : Nat} (h : d < 10) : digitVal (digitChar d) = d := by
  interval_cases d <;> decide

theorem digitChar_ne_zero {d : Nat} (h₁ : 0 < d) (h₂ : d < 10) : digitChar d ≠ '0' := by
  interval_cases d <;> decide

theorem natDigitsAux_ne_nil (fuel n : Nat) (h : n < fuel) :
    natDigitsAux fuel n ≠ [] := by
  cases fuel with
  | zero => omega
  | succ f =>
    by_cases h10 : n < 10
    · simp [natDigitsAux, h10]
    · simp [natDigitsAux, h10]

theorem natDigits_ne_nil (n : Nat) : natDigits n ≠ [] :=
  natDigitsAux_ne_nil (n + 1) n (by omega)

theorem natDigitsAux_digits (fuel : Nat) : ∀ (n : Nat), ∀ c ∈ natDigitsAux fuel n,
    c.isDigit = true := by
  induction fuel with
  | zero => intro n c hc; simp [natDigitsAux] at hc
  | succ f ih =>
    intro n c hc
    by_cases h10 : n < 10
    · simp [natDigitsAux, h10] at hc
      subst hc
      exact digitChar_isDigit h10
    · simp only [natDigitsAux, if_neg h10, List.mem_append] at hc
      rcases hc with hc | hc
      · exact ih (n / 10) c hc
      · simp at hc
        subst hc
        exact digitChar_isDigit (by omega)

theorem natDigits_digits (n : Nat) : ∀ c ∈ natDigits n, c.isDigit = true :=
  natDigitsAux_digits (n + 1) n

theorem decodeDigits_append_singleton (l : List Char) (c : Char) :
    decodeDigits (l ++ [c]) = decodeDigits l * 10 + digitVal c := by
  simp [decodeDigits, List.foldl_append]

theorem decodeDigits_natDigitsAux (fuel : Nat) : ∀ (n : Nat), n < fuel →
    decodeDigits (natDigitsAux fuel n) = n := by
  induction fuel with
  | zero => intro n h; omega
  | succ f ih =>
    intro n h
    by_cases h10 : n < 10
    · simp [natDigitsAux, h10, decodeDigits, digitVal_digitChar h10]
    · simp only [natDigitsAux, if_neg h10]
      rw [decodeDigits_append_singleton, ih (n / 10) (by omega),
        digitVal_digitChar (by omega)]
      omega

theorem decodeDigits_natDigits (n : Nat) : decodeDigits (natDigits n) = n :=
  decodeDigits_natDigitsAux (n + 1) n (by omega)

theorem natDigitsAux_head_ne_zero (fuel : Nat) : ∀ (n : Nat), 0 < n → n < fuel →
    (natDigitsAux fuel n).head? ≠ some '0' := by
  induction fuel with
  | zero => intro n h₁ h₂; omega
  | succ f ih =>
    intro n h₁ h₂
    by_cases h10 : n < 10
    · simp only [natDigitsAux, if_pos h10, List.head?_cons]
      intro h
      exact digitChar_ne_zero h₁ h10 (Option.some.inj h)
    · simp only [natDigitsAux, if_neg h10]
      cases haux : natDigitsAux f (n / 10) with
      | nil => exact absurd haux (natDigitsAux_ne_nil f (n / 10) (by omega))
      | cons c cs =>
        have := ih (n / 10) (by omega) (by omega)
        rw [haux] at this
        simpa using this

theorem natDigits_head_ne_zero {n : Nat} (h : 0 < n) :
    (natDigits n).head? ≠ some '0' :=
  natDigitsAux_head_ne_zero (n + 1) n h (by omega)

theorem natDigits_lt_ten {n : Nat} (h : n < 10) : natDigits n = [digitChar n] := by
  simp [natDigits, natDigitsAux, h]

theorem natDigits_two_digit {s : Nat} (h₁ : 10 ≤ s) (h₂ : s < 100) :
    natDigits s = [digitChar (s / 10), digitChar (s % 10)] := by
  obtain ⟨f, rfl⟩ : ∃ f, s = f + 1 := ⟨s - 1, by omega⟩
  simp [natDigits, natDigitsAux, show ¬(f + 1 < 10) by omega,
    show (f + 1) / 10 < 10 by omega]

theorem strToList_append (s t : String) : (s ++ t).toList = s.toList ++ t.toList :=
  String.data_append s t

theorem intRepr_ofNat (n : Nat) : intRepr (n : Int) = natRepr n := by
  rw [intRepr, if_neg (by omega)]
  simp

theorem pad2_ofNat (s : Nat) : pad2 (s : Int) = specSS s := by
  rw [pad2, specSS]
  by_cases h : s < 10
  · rw [if_pos (by constructor <;> omega), if_pos h, intRepr_ofNat]
  · rw [if_neg (by omega), if_neg h, intRepr_ofNat]

theorem pad2_ofNat_toList {s : Nat} (h : s < 60) :
    ∃ a b, (pad2 (s : Int)).toList = [a, b] ∧ isDigit05 a = true ∧ b.isDigit = true := by
  rw [pad2_ofNat, specSS]
  by_cases h10 : s < 10
  · refine ⟨'0', digitChar s, ?_, by decide, digitChar_isDigit h10⟩
    rw [if_pos h10, strToList_append, natRepr, List.toList_asString, natDigits_lt_ten h10]
    rfl
  · have hA : isDigit05 (digitChar (s / 10)) = true := digitChar_isDigit05 (by omega)
    have hB : (digitChar (s % 10)).isDigit = true := digitChar_isDigit (by omega)
    refine ⟨digitChar (s / 10), digitChar (s % 10), ?_, hA, hB⟩
    rw [if_neg h10, natRepr, List.toList_asString, natDigits_two_digit (by omega) (by omega)]

theorem mmssRest_append (ds : List Char) (a b : Char)
    (hd : ∀ c ∈ ds, c.isDigit = true) (ha : isDigit05 a = true)
    (hb : b.isDigit = true) : mmssRest (ds ++ ':' :: [a, b]) = true := by
  induction ds with
  | nil => simp [mmssRest, checkSS, ha, hb]
  | cons c ds ih =>
    have hc : c.isDigit = true := hd c (List.mem_cons_self c ds)
    have hcne : ¬(c = ':') := by
      intro h
      subst h
      exact absurd hc (by decide)
    rw [List.cons_append, mmssRest, if_neg hcne, Bool.and_eq_true]
    exact ⟨hc, ih (fun x hx => hd x (List.mem_cons_of_mem c hx))⟩

theorem matchesMMSS_mk (m s : Nat) (h : s < 60) :
    matchesMMSS (natRepr m ++ ":" ++ pad2 (s : Int)) = true := by
  obtain ⟨a, b, hab, ha, hb⟩ := pad2_ofNat_toList h
  have htl : (natRepr m ++ ":" ++ pad2 (s : Int)).toList =
      natDigits m ++ ':' :: [a, b] := by
    rw [strToList_append, strToList_append, hab, natRepr, List.toList_asString]
    simp
  cases hnd : natDigits m with
  | nil => exact absurd hnd (natDigits_ne_nil m)
  | cons c cs =>
    rw [hnd] at htl
    have hcd : c.isDigit = true := natDigits_digits m c (by rw [hnd]; exact List.mem_cons_self c cs)
    have hcs : ∀ x ∈ cs, x.isDigit = true := fun x hx =>
      natDigits_digits m x (by rw [hnd]; exact List.mem_cons_of_mem c hx)
    rw [matchesMMSS, htl, List.cons_append, Bool.and_eq_true]
    exact ⟨hcd, mmssRest_append cs a b hcs ha hb⟩

theorem mmss_ofNat (ms : Nat) :
    mmss (ms : Int) = natRepr (ms / 1000 / 60) ++ ":" ++ pad2 ((ms / 1000 % 60 : Nat) : Int) := by
  rw [mmss]
  have h1 : (ms : Int).fdiv 1000 = ((ms / 1000 : Nat) : Int) := by
    rw [Int.fdiv_eq_ediv _ (by omega)]
    omega
  have h2 : ((ms / 1000 : Nat) : Int).fdiv 60 = ((ms / 1000 / 60 : Nat) : Int) := by
    rw [Int.fdiv_eq_ediv _ (by omega)]
    omega
  have h3 : ((ms / 1000 : Nat) : Int).fmod 60 = ((ms / 1000 % 60 : Nat) : Int) := by
    rw [Int.fmod_eq_emod _ (by omega)]
    omega
  rw [h1, h2, h3, intRepr_ofNat]

theorem strLtB_iff : ∀ (as bs : List Char), strLtB as bs = true ↔ as < bs
  | [], [] => by
    rw [strLtB]
    exact iff_of_false (by simp) (fun h => nomatch h)
  | [], _ :: _ => iff_of_true rfl List.Lex.nil
  | _ :: _, [] => by
    rw [strLtB]
    exact iff_of_false (by simp) (fun h => nomatch h)
  | a :: as, b :: bs => by
    rw [strLtB]
    by_cases hab : charLtB a b = true
    · rw [if_pos hab]
      exact iff_of_true rfl (List.Lex.rel (of_decide_eq_true hab : a.toNat < b.toNat))
    · rw [if_neg hab]
      have hab2 : ¬a < b := fun h => hab (decide_eq_true (h : a.toNat < b.toNat))
      by_cases hba : charLtB b a = true
      · rw [if_pos hba]
        have hba2 : b < a := of_decide_eq_true hba
        refine iff_of_false (by simp) (fun h => ?_)
        cases h with
        | cons h₃ => exact absurd hba2 (lt_irrefl _)
        | rel h₁ => exact hab2 h₁
      · rw [if_neg hba]
        have heq : a = b := by
          apply Char.eq_of_val_eq
          apply UInt32.toNat.inj
          have h₁ : ¬a.val.toNat < b.val.toNat := fun h => hab (decide_eq_true h)
          have h₂ : ¬b.val.toNat < a.val.toNat := fun h => hba (decide_eq_true h)
          omega
        subst heq
        rw [strLtB_iff as bs]
        constructor
        · exact fun h => List.Lex.cons h
        · intro h
          cases h with
          | cons h₃ => exact h₃
          | rel h₁ => exact absurd h₁ (lt_irrefl _)

theorem pyStrLt_iff (s t : String) : pyStrLt s t = true ↔ s < t := by
  rw [String.lt_iff_toList_lt]
  exact strLtB_iff s.toList t.toList

theorem pyStrLt_false_iff (s t : String) : pyStrLt s t = false ↔ ¬s < t := by
  rw [← pyStrLt_iff]
  cases pyStrLt s t <;> simp

theorem pyStrLe_iff (s t : String) : pyStrLe s t = true ↔ s ≤ t := by
  rw [pyStrLe]
  constructor
  · intro h
    have hf : pyStrLt t s = false := by
      cases hh : pyStrLt t s
      · rfl
      · rw [hh] at h
        exact absurd h (by decide)
    exact not_lt.mp ((pyStrLt_false_iff t s).mp hf)
  · intro h
    have hf : pyStrLt t s = false := by
      cases hh : pyStrLt t s
      · rfl
      · exact absurd ((pyStrLt_iff t s).mp hh) (not_lt.mpr h)
    rw [hf]
    rfl

theorem pyStrLe_false (s t : String) (h : ¬ pyStrLe s t = true) : t ≤ s := by
  have : pyStrLt t s = true := by
    rw [pyStrLe] at h
    cases hh : pyStrLt t s
    · rw [hh] at h
      exact absurd rfl h
    · rfl
  exact le_of_lt ((pyStrLt_iff t s).mp this)

theorem pyMinFold_min : ∀ (xs : List String) (x : String),
    pyMinFold x xs ∈ x :: xs ∧ ∀ v ∈ x :: xs, pyMinFold x xs ≤ v := by
  intro xs
  induction xs with
  | nil =>
    intro x
    refine ⟨List.mem_cons_self x [], ?_⟩
    intro v hv
    rw [List.mem_singleton] at hv
    subst hv
    exact le_refl _
  | cons s xs ih =>
    intro x
    have hstep : pyMinFold x (s :: xs) = pyMinFold (if pyStrLt s x then s else x) xs := rfl
    obtain ⟨hmem, hle⟩ := ih (if pyStrLt s x then s else x)
    have hhead : pyMinFold (if pyStrLt s x then s else x) xs ≤
        (if pyStrLt s x then s else x) :=
      hle _ (List.mem_cons_self _ _)
    constructor
    · rw [hstep]
      rcases List.mem_cons.mp hmem with h | h
      · by_cases hsx : pyStrLt s x = true
        · rw [if_pos hsx] at h ⊢
          rw [h]
          exact List.mem_cons_of_mem x (List.mem_cons_self s xs)
        · rw [if_neg hsx] at h ⊢
          rw [h]
          exact List.mem_cons_self x (s :: xs)
      · exact List.mem_cons_of_mem x (List.mem_cons_of_mem s h)
    · intro v hv
      rw [hstep]
      rcases List.mem_cons.mp hv with hvx | hv2
      · by_cases hsx : pyStrLt s x = true
        · rw [hvx, if_pos hsx]
          rw [if_pos hsx] at hhead
          exact le_trans hhead (le_of_lt ((pyStrLt_iff s x).mp hsx))
        · rw [hvx, if_neg hsx]
          rwa [if_neg hsx] at hhead
      · rcases List.mem_cons.mp hv2 with hvs | hv3
        · by_cases hsx : pyStrLt s x = true
          · rw [hvs, if_pos hsx]
            rwa [if_pos hsx] at hhead
          · rw [hvs, if_neg hsx]
            rw [if_neg hsx] at hhead
            refine le_trans hhead (not_lt.mp ?_)
            exact fun hlt => hsx ((pyStrLt_iff s x).mpr hlt)
        · exact hle v (List.mem_cons_of_mem _ hv3)

theorem keyInsert_perm {α : Type} (key : α → String) (a : α) (l : List α) :
    (keyInsert key a l).Perm (a :: l) := by
  induction l with
  | nil => exact List.Perm.refl _
  | cons b l ih =>
    rw [keyInsert]
    by_cases h : pyStrLe (key a) (key b) = true
    · rw [if_pos h]
    · rw [if_neg h]
      exact (ih.cons b).trans (List.Perm.swap a b l)

theorem pySorted_perm {α : Type} (key : α → String) (l : List α) :
    (pySorted key l).Perm l := by
  induction l with
  | nil => exact List.Perm.refl _
  | cons b l ih => exact (keyInsert_perm key b (pySorted key l)).trans (ih.cons b)

theorem keyInsert_pairwise {α : Type} (key : α → String) (a : α) (l : List α)
    (h : l.Pairwise (fun x y => key x ≤ key y)) :
    (keyInsert key a l).Pairwise (fun x y => key x ≤ key y) := by
  induction l with
  | nil => simp [keyInsert]
  | cons b l ih =>
    rw [keyInsert]
    obtain ⟨hb, hl⟩ := List.pairwise_cons.mp h
    by_cases hab : pyStrLe (key a) (key b) = true
    · rw [if_pos hab]
      refine List.pairwise_cons.mpr ⟨?_, h⟩
      intro x hx
      rcases List.mem_cons.mp hx with hxb | hxl
      · rw [hxb]
        exact (pyStrLe_iff _ _).mp hab
      · exact le_trans ((pyStrLe_iff _ _).mp hab) (hb x hxl)
    · rw [if_neg hab]
      have hba : key b ≤ key a := pyStrLe_false _ _ hab
      refine List.pairwise_cons.mpr ⟨?_, ih hl⟩
      intro x hx
      rcases List.mem_cons.mp ((keyInsert_perm key a l).mem_iff.mp hx) with hxa | hxl
      · rw [hxa]
        exact hba
      · exact hb x hxl

theorem pySorted_pairwise {α : Type} (key : α → String) (l : List α) :
    (pySorted key l).Pairwise (fun x y => key x ≤ key y) := by
  induction l with
  | nil => exact List.Pairwise.nil
  | cons b l ih => exact keyInsert_pairwise key b (pySorted key l) ih

theorem keyInsert_filter {α : Type} (key : α → String) (a : α) (l : List α) (v : String) :
    (keyInsert key a l).filter (fun x => key x == v)
      = if key a == v then a :: l.filter (fun x => key x == v)
        else l.filter (fun x => key x == v) := by
  induction l with
  | nil =>
    rw [keyInsert]
    by_cases hv : (key a == v) = true
    · simp [List.filter, hv]
    · simp [List.filter, hv]
  | cons b l ih =>
    rw [keyInsert]
    by_cases hab : pyStrLe (key a) (key b) = true
    · rw [if_pos hab]
      by_cases hv : (key a == v) = true
      · simp [List.filter_cons, hv]
      · simp [List.filter_cons, hv]
    · rw [if_neg hab]
      have hba : key b < key a := not_le.mp (fun hle => hab ((pyStrLe_iff _ _).mpr hle))
      simp only [List.filter_cons, ih]
      by_cases hv : (key a == v) = true
      · have hv' : key a = v := by rwa [beq_iff_eq] at hv
        have hkb : (key b == v) = false := by
          rw [beq_eq_false_iff_ne]
          intro hbv
          rw [hv', ← hbv] at hba
          exact lt_irrefl _ hba
        simp [hv, hkb]
      · simp [hv]

theorem pySorted_filter {α : Type} (key : α → String) (l : List α) (v : String) :
    (pySorted key l).filter (fun x => key x == v) = l.filter (fun x => key x == v) := by
  induction l with
  | nil => rfl
  | cons b l ih =>
    show (keyInsert key b (pySorted key l)).filter _ = _
    rw [keyInsert_filter]
    by_cases hv : (key b == v) = true
    · simp [List.filter_cons, hv, ih]
    · simp [List.filter_cons, hv, ih]

theorem dateLike_lt_unknown {s : String} (h : dateLike s = true) : s < "Unknown" := by
  rw [dateLike] at h
  cases hs : s.toList with
  | nil =>
    rw [hs] at h
    exact absurd h (by simp)
  | cons c cs =>
    rw [hs] at h
    have h' : c.isDigit = true := h
    rw [Char.isDigit, Bool.and_eq_true, decide_eq_true_eq, decide_eq_true_eq] at h'
    have h57 : c.val.toNat ≤ 57 := h'.2
    rw [String.lt_iff_toList_lt, hs]
    have hU : ("Unknown" : String).toList = 'U' :: ['n', 'k', 'n', 'o', 'w', 'n'] := rfl
    rw [hU]
    exact List.Lex.rel (show c.val.toNat < 85 by omega)

theorem filter_isPrefix_of_take {α : Type} (l : List α) (n : Nat) (p : α → Bool) :
    (l.take n).filter p <+: l.filter p := by
  conv_rhs => rw [← List.take_append_drop n l]
  rw [List.filter_append]
  exact List.prefix_append _ _

theorem replaceAllAux_nil (pat rep : List Char) (fuel : Nat) :
    replaceAllAux pat rep fuel [] = [] := by
  cases fuel <;> rfl

theorem replaceAllAux_stem (pat rep : List Char) (hpat : pat ≠ []) :
    ∀ (stem : List Char) (fuel : Nat), (stem ++ pat).length ≤ fuel →
      (∀ i < stem.length, ¬pat.isPrefixOf ((stem ++ pat).drop i) = true) →
      replaceAllAux pat rep fuel (stem ++ pat) = stem ++ rep := by
  intro stem
  induction stem with
  | nil =>
    intro fuel hfuel hno
    rw [List.nil_append]
    cases pat with
    | nil => exact absurd rfl hpat
    | cons c cs =>
      cases fuel with
      | zero => simp at hfuel
      | succ f =>
        rw [replaceAllAux, if_pos (List.isPrefixOf_iff_prefix.mpr (List.prefix_refl _)),
          List.drop_length, replaceAllAux_nil, List.append_nil, List.nil_append]
  | cons c stem ih =>
    intro fuel hfuel hno
    cases fuel with
    | zero => simp at hfuel
    | succ f =>
      rw [List.cons_append, replaceAllAux]
      have h0 : ¬pat.isPrefixOf (c :: (stem ++ pat)) = true := by
        have := hno 0 (by simp)
        simpa using this
      rw [if_neg h0, ih f (by simp at hfuel ⊢; omega) ?_, List.cons_append]
      intro i hi
      have := hno (i + 1) (by simp; omega)
      simpa using this

theorem noEarlyMatch_spec {pat s : List Char} {k : Nat}
    (h : noEarlyMatch pat s k = true) :
    ∀ i < k, ¬pat.isPrefixOf (s.drop i) = true := by
  intro i hi
  have hall := List.all_eq_true.mp h i (List.mem_range.mpr hi)
  simp only [Bool.not_eq_true'] at hall
  intro hP
  rw [hP] at hall
  exact absurd hall (by decide)

theorem txtLines_enumFrom : ∀ (rows : List Row) (i : Nat),
    txtLines i rows = (rows.enumFrom i).map (fun p =>
      natRepr p.1 ++ ". " ++ valStr (rowGet p.2 "title" (Val.str "")) ++ " - "
        ++ valStr (rowGet p.2 "artists" (Val.str "")) ++ "\n") := by
  intro rows
  induction rows with
  | nil => intro i; rfl
  | cons r rows ih =>
    intro i
    simp only [txtLines, List.enumFrom, List.map_cons]
    rw [ih (i + 1)]

/-! # Claim theorems -/

/-- C2: for every non-negative integer `ms`, `mmss ms` is
`M:SS` with `M` the decimal representation of `(ms // 1000) // 60` (decoding
back to the same number, with no leading zero) and `SS` the two-digit decimal
representation of `(ms // 1000) % 60`; the result matches
`^[0-9]+:[0-5][0-9]$`, and the three documented examples hold. -/
theorem mmss_spec (ms : Nat) :
    mmss (ms : Int) = natRepr (ms / 1000 / 60) ++ ":" ++ specSS (ms / 1000 % 60)
    ∧ matchesMMSS (mmss (ms : Int)) = true
    ∧ decodeDigits (natDigits (ms / 1000 / 60)) = ms / 1000 / 60
    ∧ (0 < ms / 1000 / 60 → (natDigits (ms / 1000 / 60)).head? ≠ some '0')
    ∧ mmss 65000 = "1:05" ∧ mmss 0 = "0:00" ∧ mmss 3599000 = "59:59" := by
  refine ⟨?_, ?_, decodeDigits_natDigits _, fun h => natDigits_head_ne_zero h,
    by decide, by decide, by decide⟩
  · rw [mmss_ofNat, pad2_ofNat]
  · rw [mmss_ofNat]
    exact matchesMMSS_mk _ _ (Nat.mod_lt _ (by omega))

/-- Witness for `mmss_spec` at `ms = 65000` (where `(ms // 1000) // 60 = 1`). -/
theorem mmss_spec_witness :
    matchesMMSS (mmss ((65000 : Nat) : Int)) = true
    ∧ (natDigits (65000 / 1000 / 60)).head? ≠ some '0' :=
  ⟨(mmss_spec 65000).2.1, (mmss_spec 65000).2.2.2.1 (by decide)⟩

/-- C1: the Row Normalizer agrees record-by-record with the specified mapping
`specRow`: no row for a null/missing track, exactly one row otherwise, with
the documented defaults; in that row `duration_ms` is the integer-coerced raw
duration (default 0) and `duration_mm_ss` is the Duration Formatter applied to
it.  The map is a pure function of the record, hence idempotent. -/
theorem to_rows_spec (items : List RawMembership) :
    to_rows items = items.filterMap specRow
    ∧ (∀ item : RawMembership, item.track = none → specRow item = none)
    ∧ (∀ (item : RawMembership) (t : RawTrack), item.track = some t →
        ∃ r, specRow item = some r
          ∧ rowFind r "duration_ms" = some (Val.int (t.duration_ms.getD 0))
          ∧ rowFind r "duration_mm_ss" = some (Val.str (mmss (t.duration_ms.getD 0)))) := by
  refine ⟨?_, ?_, ?_⟩
  · induction items with
    | nil => rfl
    | cons item rest ih =>
      cases h : item.track with
      | none => simp [to_rows, specRow, h, ih]
      | some t => simp [to_rows, specRow, h, ih]
  · intro item h
    simp [specRow, h]
  · intro item t h
    simp only [specRow, h]
    refine ⟨_, rfl, ?_, ?_⟩
    · simp [rowFind]
    · simp [rowFind]

/-- Witness for `to_rows_spec`: a null-track membership yields no row; a
complete membership yields the expected duration fields. -/
theorem to_rows_spec_witness :
    specRow ⟨some "2023-01-01T00:00:00Z", none⟩ = none
    ∧ ∃ r, specRow (⟨some "2023-01-01T00:00:00Z",
        some ⟨some "Song", some [⟨some "Artist"⟩], some ⟨some "Album"⟩, some 65000,
          some ⟨some "https://open.spotify.com/track/x"⟩, some "spotify:track:x",
          some "x"⟩⟩ : RawMembership) = some r
      ∧ rowFind r "duration_ms" = some (Val.int 65000)
      ∧ rowFind r "duration_mm_ss" = some (Val.str (mmss 65000)) := by
  constructor
  · exact (to_rows_spec []).2.1 _ rfl
  · exact (to_rows_spec []).2.2 _
      ⟨some "Song", some [⟨some "Artist"⟩], some ⟨some "Album"⟩, some 65000,
        some ⟨some "https://open.spotify.com/track/x"⟩, some "spotify:track:x",
        some "x"⟩ rfl

/-- C3: the Paginator returns the concatenation of all pages in API-return
order (`List.join` neither mutates nor reorders the items), performs exactly
one fetch per page of the chain (termination at the null cursor is the end of
the chain), and on a three-page source of sizes 2, 2, 1 yields the 5 items in
source order. -/
theorem fetch_tracks_spec {α : Type} (pages : List (List α)) :
    fetch_tracks pages = pages.flatten
    ∧ (fetch_tracks_instr pages).2 = pages.length
    ∧ fetch_tracks ([[1, 2], [3, 4], [5]] : List (List Nat)) = [1, 2, 3, 4, 5] := by
  refine ⟨?_, ?_, by decide⟩
  · induction pages with
    | nil => rfl
    | cons p rest ih =>
      show p ++ fetch_tracks rest = p ++ rest.flatten
      rw [ih]
  · induction pages with
    | nil => rfl
    | cons p rest ih =>
      show (fetch_tracks_instr rest).2 + 1 = rest.length + 1
      rw [ih]

/-- C4 (amended): `get_playlist_created_date` returns the lexicographic
minimum of the truthy (present and non-empty) `added_at` values of the fetched
memberships, and returns `"Unknown"` when there are no memberships or no
truthy `added_at` value. -/
theorem get_playlist_created_date_spec (pages : List (List RawMembership)) :
    (fetch_tracks pages = [] → get_playlist_created_date pages = "Unknown")
    ∧ (truthyAddedAts (fetch_tracks pages) = [] →
        get_playlist_created_date pages = "Unknown")
    ∧ (∀ x xs, truthyAddedAts (fetch_tracks pages) = x :: xs →
        get_playlist_created_date pages ∈ x :: xs
          ∧ ∀ v ∈ x :: xs, get_playlist_created_date pages ≤ v) := by
  refine ⟨?_, ?_, ?_⟩
  · intro h
    simp [get_playlist_created_date, h]
  · intro h
    by_cases hi : fetch_tracks pages = []
    · simp [get_playlist_created_date, hi]
    · simp [get_playlist_created_date, hi, h]
  · intro x xs h
    have hi : fetch_tracks pages ≠ [] := by
      intro hnil
      rw [hnil] at h
      simp [truthyAddedAts] at h
    have heq : get_playlist_created_date pages = pyMinFold x xs := by
      simp [get_playlist_created_date, hi, h]
    rw [heq]
    exact pyMinFold_min xs x

/-- Witness for `get_playlist_created_date_spec`: on two timestamped
memberships the result is the lexicographically smaller timestamp. -/
theorem get_playlist_created_date_spec_witness :
    get_playlist_created_date [[⟨some "2023-01-02T00:00:00Z", none⟩,
        ⟨some "2022-05-01T00:00:00Z", none⟩]]
      ∈ ["2023-01-02T00:00:00Z", "2022-05-01T00:00:00Z"]
    ∧ ∀ v ∈ ["2023-01-02T00:00:00Z", "2022-05-01T00:00:00Z"],
        get_playlist_created_date [[⟨some "2023-01-02T00:00:00Z", none⟩,
          ⟨some "2022-05-01T00:00:00Z", none⟩]] ≤ v :=
  (get_playlist_created_date_spec _).2.2 "2023-01-02T00:00:00Z"
    ["2022-05-01T00:00:00Z"] (by decide)

/-- C4 counterexample: a membership carrying the empty string as `added_at`
has a present `added_at` value, and the lexicographic minimum of the present
values is `""`; the code nevertheless answers `"Unknown"`, because the list
comprehension drops falsy values. -/
theorem get_playlist_created_date_cex :
    get_playlist_created_date [[⟨some "", none⟩]] = "Unknown"
    ∧ presentAddedAts (fetch_tracks [[⟨some "", none⟩]]) = [""]
    ∧ pyMinFold "" [] = ""
    ∧ ("Unknown" : String) ≠ "" :=
  ⟨by decide, by decide, by decide, by decide⟩

theorem durationsNonneg_cons {item : RawMembership} {rest : List RawMembership}
    (h : durationsNonneg (item :: rest) = true) :
    (∀ t, item.track = some t → ∀ d, t.duration_ms = some d → 0 ≤ d)
    ∧ durationsNonneg rest = true := by
  rw [durationsNonneg, List.all_cons, Bool.and_eq_true] at h
  refine ⟨?_, h.2⟩
  intro t ht d hd
  have h1 := h.1
  simp only [ht, hd] at h1
  exact of_decide_eq_true h1

/-- C7 (amended): every row produced by the Row Normalizer has a
non-negative `duration_ms`, provided every raw duration that is present is
non-negative (a negative raw duration is truthy and passes through
unclamped). -/
theorem to_rows_duration_nonneg (items : List RawMembership)
    (hd : durationsNonneg items = true) :
    ∀ r ∈ to_rows items, ∃ v : Int,
      rowFind r "duration_ms" = some (Val.int v) ∧ 0 ≤ v := by
  induction items with
  | nil =>
    intro r hr
    simp [to_rows] at hr
  | cons item rest ih =>
    intro r hr
    cases h : item.track with
    | none =>
      simp only [to_rows, h] at hr
      exact ih (durationsNonneg_cons hd).2 r hr
    | some t =>
      simp only [to_rows, h] at hr
      rcases List.mem_cons.mp hr with hr0 | hr1
      · refine ⟨t.duration_ms.getD 0, by rw [hr0]; simp [rowFind], ?_⟩
        cases hdm : t.duration_ms with
        | none => simp
        | some d => simpa using (durationsNonneg_cons hd).1 t h d hdm
      · exact ih (durationsNonneg_cons hd).2 r hr1

/-- Witness for `to_rows_duration_nonneg` on a single complete membership. -/
theorem to_rows_duration_nonneg_witness :
    ∃ v : Int,
      rowFind ((to_rows [⟨none, some ⟨none, none, none, some 65000, none, none,
          none⟩⟩]).headD []) "duration_ms" = some (Val.int v) ∧ 0 ≤ v :=
  to_rows_duration_nonneg
    [⟨none, some ⟨none, none, none, some 65000, none, none, none⟩⟩] (by decide)
    ((to_rows [⟨none, some ⟨none, none, none, some 65000, none, none,
      none⟩⟩]).headD []) (by decide)

/-- C7 counterexample: a raw record with `duration_ms = -1` produces a
TrackRow whose `duration_ms` is `-1`, which is negative: the code never
clamps. -/
theorem to_rows_duration_cex :
    (to_rows [⟨none, some ⟨none, none, none, some (-1), none, none, none⟩⟩]).map
        (fun r => rowFind r "duration_ms") = [some (Val.int (-1))]
    ∧ (-1 : Int) < 0 :=
  ⟨by decide, by decide⟩

/-- C8: the written tabular document's first record is exactly the given
field names in order; with zero rows the fixed fallback field list is the
header and the document consists of that single header record, so the
document is never headerless. -/
theorem csv_header_spec (fieldnames : List String) (rows : List Row) :
    (csvWriteFile fieldnames rows).1.head? = some fieldnames
    ∧ (csvWriteFile fieldnames rows).1 ≠ []
    ∧ csvFieldnames [] = fallback_fieldnames
    ∧ csvExportFile [] = ([fallback_fieldnames], false) := by
  refine ⟨rfl, ?_, rfl, rfl⟩
  simp [csvWriteFile]

/-- C10: in single-export tabular mode the header field list is the keys of
the first row only, and when enrichment skips the first row (its feature
lookup is empty) but extends a later row, the tabular write raises
(`ValueError` from `csv.DictWriter`) instead of producing a document. -/
theorem csv_first_row_header_error :
    (∀ (r : Row) (rs : List Row), csvFieldnames (r :: rs) = rowKeys r)
    ∧ (csvExportFile (enrichRows alignedItems (to_rows alignedItems)
        featLookup)).2 = true :=
  ⟨fun r rs => rfl, by decide⟩

/-- C5: `created_date_playlists` is the length-at-most-10 prefix of the
playlist collection stably sorted ascending by the created-date sort key:
the sorted list is a permutation of the input, pairwise ascending, with
`"Unknown"` never ordered before any entry (in particular before any
date-like entry, which all sort strictly below `"Unknown"`), ties at any
fixed key value keep their relative catalog order, and the documented
three-playlist example yields the documented order. -/
theorem created_date_playlists_spec (ps : List Playlist)
    (hdate : datesWellFormed ps = true) :
    (created_date_playlists ps).length ≤ 10
    ∧ created_date_playlists ps = (pySorted createdSortKey ps).take 10
    ∧ (pySorted createdSortKey ps).Perm ps
    ∧ (pySorted createdSortKey ps).Pairwise (fun a b =>
        createdSortKey a ≤ createdSortKey b
          ∧ (createdSortKey a = "Unknown" → createdSortKey b = "Unknown"))
    ∧ (∀ v, (created_date_playlists ps).filter (fun p => createdSortKey p == v)
        <+: ps.filter (fun p => createdSortKey p == v))
    ∧ created_date_playlists
        [⟨"p1", "P1", 3, some "2023-01-02"⟩, ⟨"p2", "P2", 4, some "Unknown"⟩,
         ⟨"p3", "P3", 5, some "2022-05-01"⟩]
      = [⟨"p3", "P3", 5, some "2022-05-01"⟩, ⟨"p1", "P1", 3, some "2023-01-02"⟩,
         ⟨"p2", "P2", 4, some "Unknown"⟩] := by
  have hclass : ∀ p ∈ ps, createdSortKey p = "Unknown" ∨ dateLike (createdSortKey p) = true := by
    intro p hp
    have := List.all_eq_true.mp hdate p hp
    rcases Bool.or_eq_true _ _ |>.mp this with h | h
    · exact Or.inl (by rwa [beq_iff_eq] at h)
    · exact Or.inr h
  refine ⟨?_, rfl, pySorted_perm _ _, ?_, ?_, by decide⟩
  · rw [created_date_playlists, List.length_take]
    exact min_le_left _ _
  · refine List.Pairwise.imp_of_mem ?_ (pySorted_pairwise createdSortKey ps)
    intro a b ha hb hab
    refine ⟨hab, ?_⟩
    intro haU
    rcases hclass b ((pySorted_perm createdSortKey ps).mem_iff.mp hb) with h | h
    · exact h
    · exfalso
      have hlt : createdSortKey b < "Unknown" := dateLike_lt_unknown h
      rw [← haU] at hlt
      exact absurd (lt_of_le_of_lt hab hlt) (lt_irrefl _)
  · intro v
    rw [created_date_playlists]
    have := filter_isPrefix_of_take (pySorted createdSortKey ps) 10
      (fun p => createdSortKey p == v)
    rwa [pySorted_filter] at this

/-- Witness for `created_date_playlists_spec` on the three-playlist example. -/
theorem created_date_playlists_spec_witness :
    (created_date_playlists [⟨"p1", "P1", 3, some "2023-01-02"⟩,
        ⟨"p2", "P2", 4, some "Unknown"⟩, ⟨"p3", "P3", 5, some "2022-05-01"⟩]).length ≤ 10
    ∧ created_date_playlists
        [⟨"p1", "P1", 3, some "2023-01-02"⟩, ⟨"p2", "P2", 4, some "Unknown"⟩,
         ⟨"p3", "P3", 5, some "2022-05-01"⟩]
      = [⟨"p3", "P3", 5, some "2022-05-01"⟩, ⟨"p1", "P1", 3, some "2023-01-02"⟩,
         ⟨"p2", "P2", 4, some "Unknown"⟩] :=
  ⟨(created_date_playlists_spec
      [⟨"p1", "P1", 3, some "2023-01-02"⟩, ⟨"p2", "P2", 4, some "Unknown"⟩,
       ⟨"p3", "P3", 5, some "2022-05-01"⟩] (by decide)).1,
   (created_date_playlists_spec
      [⟨"p1", "P1", 3, some "2023-01-02"⟩, ⟨"p2", "P2", 4, some "Unknown"⟩,
       ⟨"p3", "P3", 5, some "2022-05-01"⟩] (by decide)).2.2.2.2.2⟩

/-- C9 (amended): the companion file name is the output path with every
occurrence of `.html` replaced by `.txt` — equal to the stem with a `.txt`
extension whenever `.html` matches at no position inside the stem — and the
companion content is the playlist name, a blank line, then one line
`i. title - artists` per row, numbered from 1 in the rows' original order. -/
theorem generate_txt_spec (stem playlist_name : String) (rows : List Row)
    (h : noEarlyMatch (".html".toList) ((stem ++ ".html").toList)
        stem.toList.length = true) :
    txtOutputName (stem ++ ".html") = stem ++ ".txt"
    ∧ txtContent playlist_name rows
      = playlist_name ++ "\n\n" ++ String.join ((rows.enumFrom 1).map (fun p =>
          natRepr p.1 ++ ". " ++ valStr (rowGet p.2 "title" (Val.str "")) ++ " - "
            ++ valStr (rowGet p.2 "artists" (Val.str "")) ++ "\n")) := by
  constructor
  · have hno : ∀ i < stem.toList.length,
        ¬(".html".toList).isPrefixOf ((stem.toList ++ ".html".toList).drop i) = true := by
      intro i hi
      have := noEarlyMatch_spec h i hi
      rwa [strToList_append] at this
    rw [txtOutputName, pyReplace, List.asString_eq, strToList_append,
      replaceAllAux_stem (".html".toList) (".txt".toList) (by decide) stem.toList
        (stem.toList ++ ".html".toList).length (le_refl _) hno,
      strToList_append]
  · rw [txtContent, txtLines_enumFrom]

/-- Witness for `generate_txt_spec` at stem `"a"` with no rows. -/
theorem generate_txt_spec_witness :
    txtOutputName ("a" ++ ".html") = "a" ++ ".txt"
    ∧ txtContent "P" ([] : List Row)
      = "P" ++ "\n\n" ++ String.join ((([] : List Row).enumFrom 1).map (fun p =>
          natRepr p.1 ++ ". " ++ valStr (rowGet p.2 "title" (Val.str "")) ++ " - "
            ++ valStr (rowGet p.2 "artists" (Val.str "")) ++ "\n")) :=
  generate_txt_spec "a" "P" [] (by decide)

/-- C9 counterexample: for the output path `"a.html.html"` the base name is
`"a.html"`, so a companion with the same base name would be `"a.html.txt"`;
`output.replace(".html", ".txt")` instead produces `"a.txt.txt"`. -/
theorem generate_txt_name_cex :
    txtOutputName "a.html.html" = "a.txt.txt"
    ∧ ("a.txt.txt" : String) ≠ "a.html.txt" :=
  ⟨by decide, by decide⟩

/-- C6 evidence of the zip misalignment: on `misalignItems` the first track
has no id, so the feature request list is `["b"]` and `zip` pairs the first
row with track `"b"`'s features: the first row — whose own track has no
feature lookup at all — is modified with another track's record, while the
second row, whose lookup is non-empty, is left unmodified. -/
theorem enrichRows_misalignment :
    extractTrackIds misalignItems = ["b"]
    ∧ (to_rows misalignItems).map (fun r => rowFind r "tempo") = [none, none]
    ∧ (enrichRows misalignItems (to_rows misalignItems) featLookup).map
        (fun r => rowFind r "tempo") = [some (Val.int 120), none]
    ∧ (enrichRows misalignItems (to_rows misalignItems) featLookup).map
        (fun r => rowFind r "spotify_uri")
      = [some (Val.str "spotify:track:a"), some (Val.str "spotify:track:b")] :=
  ⟨by decide, by decide, by decide, by decide⟩





